import Mathlib

/-!
Verification of the semanta-py core: a shallow embedding of the Python AST
node shapes the code inspects (src/semanta/symbol_table.py and
src/semanta/ast_parser.py) and of the symbol-extraction walker, with theorems
settling the specified extraction and rendering properties.
-/

namespace Semanta

/-- One formal parameter of a function, as in Python AST `ast.arg`
(the code reads only the `.arg` name field). -/
structure Arg where
  arg : String
  deriving DecidableEq, Repr

/-- The `ast.arguments` record attached to a `FunctionDef`.  The code reads
only `args` (plain positional parameters); the other fields exist on the
Python node and are carried here to show they are ignored. -/
structure Arguments where
  posonlyargs : List Arg
  args : List Arg
  vararg : Option Arg
  kwonlyargs : List Arg
  kwarg : Option Arg
  deriving DecidableEq, Repr

/-- An `ast.alias` entry of an import statement: the original `name` and the
optional `asname` alias.  The code reads only `name`. -/
structure ImportAlias where
  name : String
  asname : Option String
  deriving DecidableEq, Repr

/-- An assignment target: either a simple `ast.Name` or one of the other
target forms (tuple, attribute, subscript), which the extractor never
decomposes. -/
inductive Target where
  | name (id : String)
  | tupleTarget
  | attributeTarget
  | subscriptTarget
  deriving DecidableEq, Repr

/-- Statement nodes of the Python AST, restricted to the shapes the
extractor distinguishes; every other statement kind is represented by a
constructor the extractor treats as opaque.  Compound statements carry
their nested statement lists so that non-descent into them is provable. -/
inductive Stmt where
  | functionDef (name : String) (lineno : Nat) (args : Arguments) (body : List Stmt)
  | asyncFunctionDef (name : String) (lineno : Nat) (args : Arguments) (body : List Stmt)
  | classDef (name : String) (lineno : Nat) (body : List Stmt)
  | importStmt (names : List ImportAlias)
  | importFrom (module : Option String) (names : List ImportAlias) (level : Nat)
  | assign (targets : List Target)
  | annAssign (target : Target) (hasValue : Bool)
  | augAssign (target : Target)
  | ifStmt (body : List Stmt) (orelse : List Stmt)
  | whileStmt (body : List Stmt) (orelse : List Stmt)
  | forStmt (body : List Stmt) (orelse : List Stmt)
  | tryStmt (body : List Stmt) (orelse : List Stmt) (finalbody : List Stmt)
  | returnStmt
  | exprStmt
  | passStmt
  deriving Repr

/-- Roots `ast.parse` can produce: `Module` (exec mode), `Expression`
(eval mode), `Interactive` (single mode).  Only `Module` is recognized by
the extractor (`isinstance(tree, ast.Module)`). -/
inductive Tree where
  | module (body : List Stmt)
  | expression
  | interactive (body : List Stmt)
  deriving Repr

/-- The record built per function by `_extract_function_symbols`
(the `type` key is the constant string "FunctionDef" and is left implicit). -/
structure FunctionSymbol where
  name : String
  lineno : Nat
  parameters : List String
  local_vars : List String
  deriving DecidableEq, Repr

/-- The four record shapes `extract_symbols` can append, mirroring the
dictionaries built in symbol_table.py. -/
inductive Symbol where
  | functionSym (info : FunctionSymbol)
  | classSym (name : String) (lineno : Nat) (methods : List FunctionSymbol)
  | importSym (modules : List String)
  | importFromSym (module : Option String) (imports : List String)
  deriving DecidableEq, Repr

/-- The inner test of `_extract_local_variables`:
`if isinstance(target, ast.Name): local_vars.append(target.id)`. -/
def name_of_target : Target → Option String
  | Target.name id => some id
  | _ => none

/-- `SymbolExtractor._extract_local_variables`: scan the direct statements
of a function body for `Assign` nodes and collect each target that is a
simple `Name`. -/
def _extract_local_variables (body : List Stmt) : List String :=
  body.flatMap fun sub =>
    match sub with
    | Stmt.assign targets => targets.filterMap name_of_target
    | _ => []

/-- `SymbolExtractor._extract_function_symbols`: record the function name,
line number, positional parameter names (`node.args.args`), and the local
variables of its direct body. -/
def _extract_function_symbols (name : String) (lineno : Nat) (args : Arguments)
    (body : List Stmt) : FunctionSymbol :=
  { name := name
    lineno := lineno
    parameters := args.args.map Arg.arg
    local_vars := _extract_local_variables body }

/-- The inner test of `_extract_class_symbols`:
`if isinstance(sub_node, ast.FunctionDef)` inside a class body. -/
def method_of_stmt : Stmt → Option FunctionSymbol
  | Stmt.functionDef n l a b => some (_extract_function_symbols n l a b)
  | _ => none

/-- `SymbolExtractor._extract_class_symbols`: record the class name, line
number, and the function symbols of the `FunctionDef` nodes appearing
directly in the class body. -/
def _extract_class_symbols (name : String) (lineno : Nat) (body : List Stmt) : Symbol :=
  Symbol.classSym name lineno (body.filterMap method_of_stmt)

/-- The dispatch of the `for node in tree.body` loop of `extract_symbols`:
the `if`/`elif` chain recognizing `FunctionDef`, `ClassDef`, `Import`,
`ImportFrom` and appending one record for each; every other statement adds
nothing. -/
def extract_top_level : Stmt → Option Symbol
  | Stmt.functionDef n l a b => some (Symbol.functionSym (_extract_function_symbols n l a b))
  | Stmt.classDef n l b => some (_extract_class_symbols n l b)
  | Stmt.importStmt names => some (Symbol.importSym (names.map ImportAlias.name))
  | Stmt.importFrom m names _ => some (Symbol.importFromSym m (names.map ImportAlias.name))
  | _ => none

/-- `SymbolExtractor.extract_symbols`: return the empty list unless the
root is a `Module` with a body, else collect one record per recognized
direct statement of `Module.body`, in order. -/
def extract_symbols : Tree → List Symbol
  | Tree.module body => body.filterMap extract_top_level
  | _ => []

/-- `AstParser` (ast_parser.py): its only state is the parse mode string
fixed at construction. -/
structure AstParser where
  mode : String
  deriving DecidableEq, Repr

/-- `AstParser.parse`: `return ast.parse(source, mode=self.mode)`.  The
underlying `ast.parse` is the Python standard library, outside this
repository; it enters the model as an explicit function of the mode and the
source text, so that the wrapper's output provably depends on nothing else. -/
def AstParser.parse (astParse : String → String → Tree) (self : AstParser)
    (source : String) : Tree :=
  astParse self.mode source

/-- One token of the textual tree dump: a node constructor name, a field
label, a string or numeric field value, or a position attribute such as a
line number. -/
inductive DumpTok where
  | node (kind : String)
  | fieldLabel (f : String)
  | strVal (s : String)
  | natVal (n : Nat)
  | attrVal (f : String) (v : Nat)
  deriving DecidableEq, Repr

/-- Whether a token is a per-field label. -/
def DumpTok.isFieldLabel : DumpTok → Bool
  | DumpTok.fieldLabel _ => true
  | _ => false

/-- Whether a token is a position/attribute metadatum. -/
def DumpTok.isAttrVal : DumpTok → Bool
  | DumpTok.attrVal _ _ => true
  | _ => false

/-- Which tokens survive a dump: field labels only when fields are
labelled, attribute tokens only when attributes are included, structural
tokens always. -/
def DumpTok.keep (fields attrs : Bool) : DumpTok → Bool
  | DumpTok.fieldLabel _ => fields
  | DumpTok.attrVal _ _ => attrs
  | _ => true

/-- Tokens of one import alias. -/
def alias_toks (a : ImportAlias) : List DumpTok :=
  [DumpTok.node "alias", DumpTok.fieldLabel "name", DumpTok.strVal a.name] ++
    (match a.asname with
     | some s => [DumpTok.fieldLabel "asname", DumpTok.strVal s]
     | none => [])

/-- Tokens of one assignment target. -/
def target_toks : Target → List DumpTok
  | Target.name id => [DumpTok.node "Name", DumpTok.fieldLabel "id", DumpTok.strVal id]
  | Target.tupleTarget => [DumpTok.node "Tuple"]
  | Target.attributeTarget => [DumpTok.node "Attribute"]
  | Target.subscriptTarget => [DumpTok.node "Subscript"]

/-- Tokens of an argument record. -/
def arguments_toks (a : Arguments) : List DumpTok :=
  [DumpTok.node "arguments", DumpTok.fieldLabel "args"] ++
    a.args.flatMap fun x => [DumpTok.node "arg", DumpTok.fieldLabel "arg", DumpTok.strVal x.arg]

/-- Modelled from the spec: the full token stream of `ast.dump` for one
statement (`ast.dump` is standard-library code outside this repository).
Every field carries its label token and every positioned node carries its
line-number attribute token; rendering modes are then obtained by filtering
this one stream with `DumpTok.keep`. -/
def stmt_toks : Stmt → List DumpTok
  | Stmt.functionDef n l a body =>
      [DumpTok.node "FunctionDef", DumpTok.fieldLabel "name", DumpTok.strVal n,
        DumpTok.fieldLabel "args"] ++ arguments_toks a ++ [DumpTok.fieldLabel "body"] ++
        (body.attach.flatMap fun x => stmt_toks x.1) ++ [DumpTok.attrVal "lineno" l]
  | Stmt.asyncFunctionDef n l a body =>
      [DumpTok.node "AsyncFunctionDef", DumpTok.fieldLabel "name", DumpTok.strVal n,
        DumpTok.fieldLabel "args"] ++ arguments_toks a ++ [DumpTok.fieldLabel "body"] ++
        (body.attach.flatMap fun x => stmt_toks x.1) ++ [DumpTok.attrVal "lineno" l]
  | Stmt.classDef n l body =>
      [DumpTok.node "ClassDef", DumpTok.fieldLabel "name", DumpTok.strVal n,
        DumpTok.fieldLabel "body"] ++
        (body.attach.flatMap fun x => stmt_toks x.1) ++ [DumpTok.attrVal "lineno" l]
  | Stmt.importStmt names =>
      [DumpTok.node "Import", DumpTok.fieldLabel "names"] ++ names.flatMap alias_toks
  | Stmt.importFrom m names lvl =>
      [DumpTok.node "ImportFrom", DumpTok.fieldLabel "module"] ++
        (match m with | some s => [DumpTok.strVal s] | none => []) ++
        [DumpTok.fieldLabel "names"] ++ names.flatMap alias_toks ++
        [DumpTok.fieldLabel "level", DumpTok.natVal lvl]
  | Stmt.assign targets =>
      [DumpTok.node "Assign", DumpTok.fieldLabel "targets"] ++ targets.flatMap target_toks
  | Stmt.annAssign t _ =>
      [DumpTok.node "AnnAssign", DumpTok.fieldLabel "target"] ++ target_toks t
  | Stmt.augAssign t =>
      [DumpTok.node "AugAssign", DumpTok.fieldLabel "target"] ++ target_toks t
  | Stmt.ifStmt body orelse =>
      [DumpTok.node "If", DumpTok.fieldLabel "body"] ++
        (body.attach.flatMap fun x => stmt_toks x.1) ++ [DumpTok.fieldLabel "orelse"] ++
        (orelse.attach.flatMap fun x => stmt_toks x.1)
  | Stmt.whileStmt body orelse =>
      [DumpTok.node "While", DumpTok.fieldLabel "body"] ++
        (body.attach.flatMap fun x => stmt_toks x.1) ++ [DumpTok.fieldLabel "orelse"] ++
        (orelse.attach.flatMap fun x => stmt_toks x.1)
  | Stmt.forStmt body orelse =>
      [DumpTok.node "For", DumpTok.fieldLabel "body"] ++
        (body.attach.flatMap fun x => stmt_toks x.1) ++ [DumpTok.fieldLabel "orelse"] ++
        (orelse.attach.flatMap fun x => stmt_toks x.1)
  | Stmt.tryStmt body orelse finalbody =>
      [DumpTok.node "Try", DumpTok.fieldLabel "body"] ++
        (body.attach.flatMap fun x => stmt_toks x.1) ++ [DumpTok.fieldLabel "orelse"] ++
        (orelse.attach.flatMap fun x => stmt_toks x.1) ++
        [DumpTok.fieldLabel "finalbody"] ++
        (finalbody.attach.flatMap fun x => stmt_toks x.1)
  | Stmt.returnStmt => [DumpTok.node "Return"]
  | Stmt.exprStmt => [DumpTok.node "Expr"]
  | Stmt.passStmt => [DumpTok.node "Pass"]
termination_by s => sizeOf s
decreasing_by
  all_goals
    simp_wf
    have h := List.sizeOf_lt_of_mem x.2
    omega

/-- The full token stream of a tree dump. -/
def tree_toks : Tree → List DumpTok
  | Tree.module body =>
      [DumpTok.node "Module", DumpTok.fieldLabel "body"] ++ body.flatMap stmt_toks
  | Tree.expression => [DumpTok.node "Expression"]
  | Tree.interactive body =>
      [DumpTok.node "Interactive", DumpTok.fieldLabel "body"] ++ body.flatMap stmt_toks

/-- Modelled from the spec: `ast.dump(tree, annotate_fields, include_attributes)`
as the full token stream with per-field labels kept only when fields are
annotated and position attributes kept only when attributes are included. -/
def ast_dump (tree : Tree) (fields attrs : Bool) : List DumpTok :=
  (tree_toks tree).filter (DumpTok.keep fields attrs)

/-- `AstParser.dump`: `ast.dump(tree, indent=4, annotate_fields=not simplified,
include_attributes=not simplified)`. -/
def AstParser.dump (_self : AstParser) (tree : Tree) (simplified : Bool) : List DumpTok :=
  ast_dump tree (!simplified) (!simplified)

/-! Spec-side recursions, written from the words of the specification, to be
compared with the extractor functions above. -/

/-- Spec reading of target collection: for one `Assign`, every target that is
a simple `Name` contributes its id, in order; other targets are skipped. -/
def spec_target_names : List Target → List String
  | [] => []
  | Target.name id :: ts => id :: spec_target_names ts
  | _ :: ts => spec_target_names ts

/-- Spec reading of local variables: scan only the direct statements of the
body for `Assign` statements; duplicates are all kept in source order. -/
def spec_local_vars : List Stmt → List String
  | [] => []
  | Stmt.assign ts :: rest => spec_target_names ts ++ spec_local_vars rest
  | _ :: rest => spec_local_vars rest

/-- Spec reading of class methods: one function symbol per `FunctionDef`
appearing directly in the class body, in body order. -/
def spec_methods : List Stmt → List FunctionSymbol
  | [] => []
  | Stmt.functionDef n l a b :: rest => _extract_function_symbols n l a b :: spec_methods rest
  | _ :: rest => spec_methods rest

/-- The records one top-level statement produces (zero or one). -/
def record_of (s : Stmt) : List Symbol :=
  (extract_top_level s).toList

/-- Spec reading of the traversal: each direct statement of `Module.body`
contributes its records in source order, with no placeholder for statements
producing none. -/
def spec_extract : List Stmt → List Symbol
  | [] => []
  | s :: rest => record_of s ++ spec_extract rest

/-! Concrete checks of the testable properties listed in the specification,
evaluated on the embedded definitions. -/

example :
    _extract_local_variables
      [Stmt.assign [Target.name "x"], Stmt.assign [Target.tupleTarget]] = ["x"] := rfl

example :
    extract_symbols (Tree.module [Stmt.importStmt [⟨"os", none⟩, ⟨"sys", some "s"⟩]]) =
      [Symbol.importSym ["os", "sys"]] := rfl

example :
    extract_symbols
        (Tree.module [Stmt.importFrom (some "pkg.sub") [⟨"a", none⟩, ⟨"b", some "c"⟩] 0]) =
      [Symbol.importFromSym (some "pkg.sub") ["a", "b"]] := rfl

example :
    extract_symbols (Tree.module
        [Stmt.classDef "C" 1
          [Stmt.functionDef "a" 2 ⟨[], [], none, [], none⟩ [Stmt.passStmt],
            Stmt.functionDef "b" 3 ⟨[], [⟨"n"⟩], none, [], none⟩ [Stmt.returnStmt]]]) =
      [Symbol.classSym "C" 1 [⟨"a", 2, [], []⟩, ⟨"b", 3, ["n"], []⟩]] := rfl

example :
    extract_symbols (Tree.module [Stmt.exprStmt, Stmt.returnStmt, Stmt.passStmt]) = [] := rfl

/-! Helper lemmas shared by the claim theorems. -/

theorem filterMap_name_of_target (ts : List Target) :
    ts.filterMap name_of_target = spec_target_names ts := by
  induction ts with
  | nil => rfl
  | cons t rest ih =>
    cases t <;> simp [name_of_target, spec_target_names, ih]

theorem extract_local_eq_spec (b : List Stmt) :
    _extract_local_variables b = spec_local_vars b := by
  induction b with
  | nil => rfl
  | cons s rest ih =>
    cases s <;>
      simp [_extract_local_variables, spec_local_vars, filterMap_name_of_target] at ih ⊢ <;>
      exact ih

theorem filterMap_method_eq_spec (b : List Stmt) :
    b.filterMap method_of_stmt = spec_methods b := by
  induction b with
  | nil => rfl
  | cons s rest ih =>
    cases s <;> simp [method_of_stmt, spec_methods, ih]

theorem extract_module_eq_spec (body : List Stmt) :
    extract_symbols (Tree.module body) = spec_extract body := by
  induction body with
  | nil => rfl
  | cons s rest ih =>
    cases h : extract_top_level s <;>
      simp [extract_symbols, spec_extract, record_of, h] at ih ⊢ <;>
      exact ih

theorem extract_module_append (xs ys : List Stmt) :
    extract_symbols (Tree.module (xs ++ ys)) =
      extract_symbols (Tree.module xs) ++ extract_symbols (Tree.module ys) := by
  simp [extract_symbols, List.filterMap_append]

/-! The claim theorems. -/

/-- C1: for every `FunctionDef` node, the `local_vars` of its emitted
function symbol are exactly the names obtained by scanning only the direct
statements of the body for `Assign` statements and taking, per statement,
every target that is a simple `Name` in order; non-`Name` targets are
skipped and duplicates are kept in source order. -/
theorem function_local_vars_spec (n : String) (l : Nat) (a : Arguments) (b : List Stmt) :
    (_extract_function_symbols n l a b).local_vars = spec_local_vars b := by
  simp [_extract_function_symbols, extract_local_eq_spec]

/-- C2: every top-level `ClassDef` yields exactly one class symbol, in
position, whose methods are one function symbol per direct `FunctionDef` of
the class body, in body order, each built by the function extraction rule;
nested classes and non-function statements contribute no method. -/
theorem class_symbol_spec (n : String) (l : Nat) (b pre post : List Stmt) :
    extract_symbols (Tree.module (pre ++ Stmt.classDef n l b :: post)) =
      extract_symbols (Tree.module pre) ++
        Symbol.classSym n l (spec_methods b) :: extract_symbols (Tree.module post) := by
  simp [extract_symbols, List.filterMap_append, extract_top_level,
    _extract_class_symbols, filterMap_method_eq_spec]

/-- C10: annotated assignments and augmented assignments in a function's
direct body contribute nothing to `local_vars`, even when their target is a
simple name; only plain `Assign` statements are scanned. -/
theorem ann_aug_assign_no_local_vars (n : String) (l : Nat) (a : Arguments)
    (t : Target) (hv : Bool) (pre post : List Stmt) :
    (_extract_function_symbols n l a (pre ++ Stmt.annAssign t hv :: post)).local_vars =
      (_extract_function_symbols n l a (pre ++ post)).local_vars ∧
    (_extract_function_symbols n l a (pre ++ Stmt.augAssign t :: post)).local_vars =
      (_extract_function_symbols n l a (pre ++ post)).local_vars := by
  constructor <;>
    simp [_extract_function_symbols, _extract_local_variables, List.flatMap_append]

/-- C3: extraction inspects only the direct statements of `Module.body`:
the output lists, in source order, exactly the records of the direct
statements; compound top-level statements produce no record whatever their
nested bodies hold; and a body none of whose statements produces a record
yields the empty sequence. -/
theorem extract_traversal_spec (body b1 b2 b3 : List Stmt) :
    extract_symbols (Tree.module body) = spec_extract body ∧
    extract_symbols (Tree.module [Stmt.ifStmt b1 b2]) = [] ∧
    extract_symbols (Tree.module [Stmt.whileStmt b1 b2]) = [] ∧
    extract_symbols (Tree.module [Stmt.forStmt b1 b2]) = [] ∧
    extract_symbols (Tree.module [Stmt.tryStmt b1 b2 b3]) = [] ∧
    ((∀ s ∈ body, record_of s = []) → extract_symbols (Tree.module body) = []) := by
  refine ⟨extract_module_eq_spec body, rfl, rfl, rfl, rfl, ?_⟩
  intro h
  rw [extract_module_eq_spec body]
  induction body with
  | nil => rfl
  | cons s rest ih =>
    have hs : record_of s = [] := h s (List.mem_cons_self s rest)
    simp [spec_extract, hs]
    exact ih fun x hx => h x (List.mem_cons_of_mem s hx)

/-- Witness for C3: a module whose two top-level statements are an
expression statement and a conditional holding a function definition
extracts to the empty sequence. -/
theorem extract_traversal_spec_witness :
    extract_symbols (Tree.module [Stmt.exprStmt,
      Stmt.ifStmt [Stmt.functionDef "f" 3 ⟨[], [], none, [], none⟩ []] []]) = [] :=
  (extract_traversal_spec
      [Stmt.exprStmt, Stmt.ifStmt [Stmt.functionDef "f" 3 ⟨[], [], none, [], none⟩ []] []]
      [] [] []).2.2.2.2.2 (by decide)

/-- C4: on any tree whose root is not a `Module`, extraction returns the
empty sequence rather than failing; on every tree it is a total function. -/
theorem extract_non_module_empty (t : Tree) (h : ∀ body, t ≠ Tree.module body) :
    extract_symbols t = [] := by
  cases t with
  | module body => exact absurd rfl (h body)
  | expression => rfl
  | interactive body => rfl

/-- Witness for C4: the `Expression` root (eval parse mode) extracts to the
empty sequence. -/
theorem extract_non_module_empty_witness : extract_symbols Tree.expression = [] :=
  extract_non_module_empty Tree.expression fun _ h => Tree.noConfusion h

/-- C5: a top-level `Import` yields exactly one import symbol, in position,
listing every imported module by its original name (aliases ignored) in
declaration order; a top-level `ImportFrom` yields exactly one symbol
carrying the optional module name and the ordered original imported names. -/
theorem import_symbols_spec (names : List ImportAlias) (m : Option String)
    (lvl : Nat) (pre post : List Stmt) :
    extract_symbols (Tree.module (pre ++ Stmt.importStmt names :: post)) =
      extract_symbols (Tree.module pre) ++
        Symbol.importSym (names.map ImportAlias.name) :: extract_symbols (Tree.module post) ∧
    extract_symbols (Tree.module (pre ++ Stmt.importFrom m names lvl :: post)) =
      extract_symbols (Tree.module pre) ++
        Symbol.importFromSym m (names.map ImportAlias.name) ::
          extract_symbols (Tree.module post) := by
  constructor <;> simp [extract_symbols, List.filterMap_append, extract_top_level]

/-- C6: a top-level `FunctionDef` yields exactly one function symbol, in
position, carrying the node's name, its line number, and the names of its
plain positional parameters verbatim and in declaration order (the
positional-only, variadic, keyword-only and keyword fields of the argument
record are ignored; duplicate names are preserved by the map). -/
theorem function_symbol_spec (n : String) (l : Nat) (a : Arguments) (b pre post : List Stmt) :
    extract_symbols (Tree.module (pre ++ Stmt.functionDef n l a b :: post)) =
      extract_symbols (Tree.module pre) ++
        Symbol.functionSym
          { name := n, lineno := l, parameters := a.args.map Arg.arg,
            local_vars := _extract_local_variables b } ::
          extract_symbols (Tree.module post) := by
  simp [extract_symbols, List.filterMap_append, extract_top_level, _extract_function_symbols]

/-- C9: an `AsyncFunctionDef` is never recognized: at top level it produces
no symbol record, and inside a class body it contributes no method to the
class symbol. -/
theorem async_function_not_recognized (n : String) (l : Nat) (a : Arguments)
    (b pre post : List Stmt) (cn : String) (cl : Nat) (cpre cpost : List Stmt) :
    extract_symbols (Tree.module (pre ++ Stmt.asyncFunctionDef n l a b :: post)) =
      extract_symbols (Tree.module (pre ++ post)) ∧
    extract_symbols (Tree.module
        [Stmt.classDef cn cl (cpre ++ Stmt.asyncFunctionDef n l a b :: cpost)]) =
      extract_symbols (Tree.module [Stmt.classDef cn cl (cpre ++ cpost)]) := by
  constructor <;>
    simp [extract_symbols, List.filterMap_append, extract_top_level,
      _extract_class_symbols, method_of_stmt]

/-- C7: the parse-then-extract pipeline is deterministic: its result depends
only on the parser's mode and the source text, so two invocations on an
identical input string produce identical record sequences in identical
order. -/
theorem pipeline_deterministic (astParse : String → String → Tree)
    (p1 p2 : AstParser) (hmode : p1.mode = p2.mode) (s1 s2 : String) (hs : s1 = s2) :
    extract_symbols (AstParser.parse astParse p1 s1) =
      extract_symbols (AstParser.parse astParse p2 s2) := by
  simp [AstParser.parse, hmode, hs]

/-- Witness for C7: two fresh exec-mode parsers on the same source give the
same extraction. -/
theorem pipeline_deterministic_witness :
    extract_symbols (AstParser.parse (fun _ _ => Tree.module []) ⟨"exec"⟩ "import os") =
      extract_symbols (AstParser.parse (fun _ _ => Tree.module []) ⟨"exec"⟩ "import os") :=
  pipeline_deterministic (fun _ _ => Tree.module [])
    ⟨"exec"⟩ ⟨"exec"⟩ rfl "import os" "import os" rfl

/-- C8: `dump` is a total function of the tree and the flag, hence
deterministic; with `simplified` false it returns the full token stream, in
which every field is labelled and position metadata appears; with
`simplified` true it returns that same stream with exactly the field-label
and attribute tokens removed, so the simplified dump holds neither. -/
theorem dump_modes (p : AstParser) (t : Tree) :
    (∀ tok ∈ AstParser.dump p t true, tok.isFieldLabel = false ∧ tok.isAttrVal = false) ∧
    AstParser.dump p t false = tree_toks t ∧
    AstParser.dump p t true = (AstParser.dump p t false).filter (DumpTok.keep false false) := by
  have hfull : AstParser.dump p t false = tree_toks t :=
    List.filter_eq_self.mpr fun a _ => by cases a <;> rfl
  refine ⟨?_, hfull, by rw [hfull]; rfl⟩
  intro tok htok
  have hk := List.of_mem_filter htok
  cases tok with
  | fieldLabel f => exact absurd hk (by simp [DumpTok.keep])
  | attrVal f v => exact absurd hk (by simp [DumpTok.keep])
  | node k => exact ⟨rfl, rfl⟩
  | strVal s => exact ⟨rfl, rfl⟩
  | natVal n => exact ⟨rfl, rfl⟩

/-- Witness for C8: the node token of an eval-mode root is in its simplified
dump and is neither a label nor an attribute token. -/
theorem dump_modes_witness :
    (DumpTok.node "Expression").isFieldLabel = false ∧
      (DumpTok.node "Expression").isAttrVal = false :=
  (dump_modes ⟨"exec"⟩ Tree.expression).1 (DumpTok.node "Expression") (by decide)

end Semanta
